import Mathlib

/-!
# Verification of the `joker` CLI core (`src/lib.rs`)

A shallow embedding of the daemon-registry operations (`add_daemon`,
`checkout_daemon`), the artifact shipper (`run_containers`) and the
command dispatcher (`execute`) of the `joker` crate, together with
theorems about the claims of its specification.

Strings from the Rust side are represented as `List Char`; raw bytes
(file contents, socket traffic) as `List Nat` with each element `< 256`.
-/

/-- Strings of the Rust source, as lists of characters. -/
abbrev Str := List Char

/-- Raw bytes, each `< 256` when produced by the embedded code. -/
abbrev Bytes := List Nat

/-! ## Data model: addresses and the persisted registry -/

/-- Modelled from the spec: an IPv4 address (`std::net::IpAddr` is
external to this repository; the spec only requires "a resolved network
endpoint (IP address + port)").  Four octets. -/
structure IpAddr where
  o1 : Nat
  o2 : Nat
  o3 : Nat
  o4 : Nat
deriving DecidableEq, Repr

/-- Rust `std::net::SocketAddr`: an IP address plus a 16-bit port. -/
structure SocketAddr where
  ip : IpAddr
  port : Nat
deriving DecidableEq, Repr

/-- The `Daemon { name, socket_address }` record of the `daemon` module
(spec §3 `DaemonRecord`). -/
structure Daemon where
  name : Str
  socket_address : SocketAddr
deriving DecidableEq, Repr

/-- The persisted registry state (spec §3 `RegistryState`): the
`daemons` name→address map (a `HashMap` in the source, embedded as an
association list with unique keys) and the `current_daemon`. -/
structure Config where
  daemons : List (Str × SocketAddr)
  current_daemon : Daemon
deriving DecidableEq, Repr

/-- Association-list lookup, the embedding of `HashMap::get`. -/
def lookupD : List (Str × SocketAddr) → Str → Option SocketAddr
  | [], _ => none
  | (k, v) :: rest, key => if k = key then some v else lookupD rest key

/-- The embedding of `HashMap::entry(name).or_insert(addr)`: keep the
existing entry if the key is present, otherwise insert the new pair. -/
def orInsert (m : List (Str × SocketAddr)) (k : Str) (v : SocketAddr) :
    List (Str × SocketAddr) :=
  match lookupD m k with
  | some _ => m
  | none => m ++ [(k, v)]

/-! ## Parsing (external `std` parsers, modelled from the spec) -/

/-- Character-list split on a separator, the embedding of Rust
`str::split(sep)`: always yields at least one (possibly empty) segment,
e.g. `split '/' "" = [""]` and `split '/' "a/" = ["a", ""]`. -/
def splitChar (sep : Char) : Str → List Str
  | [] => [[]]
  | c :: rest =>
    if c = sep then [] :: splitChar sep rest
    else
      match splitChar sep rest with
      | [] => [[c]]
      | g :: gs => (c :: g) :: gs

/-- Numeric value of a list of decimal digit characters. -/
def digitsVal (l : Str) : Nat :=
  l.foldl (fun a c => a * 10 + (c.toNat - 48)) 0

/-- Modelled from the spec: `port_text.parse::<u16>()` (the `std`
parser is external to this repository; the spec says "parses …
`port_text` as a 16-bit port").  An optional leading `+`, then at least
one decimal digit, value at most `65535`. -/
def parseU16 (s : Str) : Option Nat :=
  let digits := match s with
    | '+' :: rest => rest
    | _ => s
  if digits = [] then none
  else if digits.all (fun c => c.isDigit) then
    if digitsVal digits < 65536 then some (digitsVal digits) else none
  else none

/-- A valid dotted-quad octet: one to three decimal digits, no leading
zero unless the octet is exactly `"0"`, value at most `255`. -/
def validOctet (g : Str) : Bool :=
  g ≠ [] && g.length ≤ 3 && g.all (fun c => c.isDigit) &&
    (g.length = 1 || g.headI ≠ '0') && digitsVal g ≤ 255

/-- Modelled from the spec: `IpAddr::from_str(ip_text)` (the `std`
parser is external to this repository; the spec says "parses `ip_text`
as an IP address").  Accepts IPv4 dotted-quad text. -/
def parseIp (s : Str) : Option IpAddr :=
  match splitChar '.' s with
  | [a, b, c, d] =>
    if validOctet a && validOctet b && validOctet c && validOctet d then
      some ⟨digitsVal a, digitsVal b, digitsVal c, digitsVal d⟩
    else none
  | _ => none

/-! ## Errors -/

/-- The error kinds the embedded commands can produce (the source uses
`Box<dyn Error>`; these are the distinct error values that reach it). -/
inductive JError where
  /-- Error of `IpAddr::from_str` (spec: `InvalidAddress`). -/
  | addrParse : JError
  /-- Error of `port.parse::<u16>()` (spec: `InvalidAddress`). -/
  | parseInt : JError
  /-- The `AbsentHashMapKeyError` (spec: `UnknownDaemon`). -/
  | absentKey : JError
  /-- Error of `TcpStream::connect` (spec: `ConnectionFailed`). -/
  | connectionFailed : JError
  /-- The `ok_or("Error: bad file path.")` branch (spec: `MalformedPath`). -/
  | malformedPath : JError
  /-- Error of `std::fs::read(p)` (spec: `ArtifactUnreadable` / `ManifestUnreadable`). -/
  | fileRead (p : Str) : JError
  /-- Error of `write_all` (spec: `TransferInterrupted`). -/
  | writeFailed : JError
deriving DecidableEq, Repr

/-! ## Registry operations (`add_daemon`, `checkout_daemon`) -/

instance : DecidableEq (Except JError Unit) := fun
  | .ok (), .ok () => isTrue rfl
  | .ok (), .error _ => isFalse nofun
  | .error _, .ok () => isFalse nofun
  | .error e, .error f =>
    if h : e = f then isTrue (h ▸ rfl)
    else isFalse (fun hh => h (Except.error.inj hh))

/-- Outcome of a registry command: the `Result` value, the final
in-memory `config`, the persisted state after the command, and the list
of configs passed to `write_config` (in call order). -/
structure RegResult where
  result : Except JError Unit
  memory : Config
  persisted : Config
  savedCalls : List Config
deriving DecidableEq, Repr

/-- The embedding of `add_daemon` (src/lib.rs:106–123).  `get_config`
and `write_config` live in the crate's `daemon` module, which is not
part of the analysed sources; they are modelled from the spec: `load`
returns the persisted state and `save` overwrites it (spec §4.1), so
the persisted state is threaded in and out explicitly and every
`write_config` call is recorded. -/
def add_daemon (persisted : Config) (daemon_name ip_addr port : Str) :
    RegResult :=
  let config := persisted
  match parseIp ip_addr with
  | none => ⟨.error .addrParse, config, persisted, []⟩
  | some ip =>
    match parseU16 port with
    | none => ⟨.error .parseInt, config, persisted, []⟩
    | some p =>
      let socket_addr : SocketAddr := ⟨ip, p⟩
      let config' : Config :=
        { config with daemons := orInsert config.daemons daemon_name socket_addr }
      ⟨.ok (), config', config', [config']⟩

/-- The embedding of `checkout_daemon` (src/lib.rs:125–153), with the
same spec-modelled `get_config`/`write_config` convention as
`add_daemon`. -/
def checkout_daemon (persisted : Config) (name : Str) : RegResult :=
  let config := persisted
  match lookupD config.daemons name with
  | none => ⟨.error .absentKey, config, persisted, []⟩
  | some socket_address =>
    let config' : Config :=
      { config with current_daemon := ⟨name, socket_address⟩ }
    ⟨.ok (), config', config', [config']⟩

/-! ## The artifact shipper (`run_containers`) -/

/-- UTF-8 encoding of one character, the embedding of what
`str::as_bytes` yields per scalar value. -/
def utf8Char (c : Char) : Bytes :=
  let n := c.toNat
  if n < 128 then [n]
  else if n < 2048 then [192 + n / 64, 128 + n % 64]
  else if n < 65536 then
    [224 + n / 4096, 128 + n / 64 % 64, 128 + n % 64]
  else
    [240 + n / 262144, 128 + n / 4096 % 64, 128 + n / 64 % 64, 128 + n % 64]

/-- The embedding of `str::as_bytes().to_owned()`: UTF-8 bytes of a
character list. -/
def strBytes (s : Str) : Bytes := s.flatMap utf8Char

/-- The embedding of `(len as u64).to_le_bytes()`: the eight
little-endian base-256 digits of `n % 2^64`. -/
def toLeBytes8 (n : Nat) : Bytes :=
  [n % 256, n / 256 % 256, n / 256 ^ 2 % 256, n / 256 ^ 3 % 256,
   n / 256 ^ 4 % 256, n / 256 ^ 5 % 256, n / 256 ^ 6 % 256, n / 256 ^ 7 % 256]

/-- One wire frame: the 8-byte little-endian length prefix followed by
the raw bytes. -/
def frame (bs : Bytes) : Bytes := toLeBytes8 bs.length ++ bs

/-- The fixed manifest suffix of `format!("{}.joker", container_path)`. -/
def jokerSuffix : Str := '.' :: 'j' :: 'o' :: 'k' :: 'e' :: 'r' :: []

/-- The world `run_containers` interacts with: the local filesystem
(bytes per path, `none` = unreadable), whether the single
`TcpStream::connect` succeeds, and how many `write_all` calls succeed
before the socket fails (`none` = writes never fail). -/
structure NetWorld where
  fs : Str → Option Bytes
  connectOk : Bool
  failAfter : Option Nat

/-- Mutable state of the open `TcpStream` plus the file reads issued so
far: bytes written to the socket, read attempts (in order), and the
number of `write_all` calls made so far. -/
structure SendState where
  written : Bytes
  reads : List Str
  calls : Nat
deriving DecidableEq, Repr

/-- The embedding of `tcp_stream.write_all(bs)`: appends the bytes and
counts the call, or fails once the world's `failAfter` budget is
exhausted (a failed call writes nothing at this abstraction level). -/
def writeAll (failAfter : Option Nat) (st : SendState) (bs : Bytes) :
    Except JError SendState :=
  match failAfter with
  | none => .ok ⟨st.written ++ bs, st.reads, st.calls + 1⟩
  | some k =>
    if st.calls < k then .ok ⟨st.written ++ bs, st.reads, st.calls + 1⟩
    else .error .writeFailed

/-- Performs a sequence of `write_all` calls, stopping at the first
failure (the state already written is kept). -/
def writeMany (failAfter : Option Nat) (st : SendState) :
    List Bytes → SendState × Option JError
  | [] => (st, none)
  | bs :: rest =>
    match writeAll failAfter st bs with
    | .error e => (st, some e)
    | .ok st' => writeMany failAfter st' rest

/-- One iteration of the `for &container_path in containers` loop
(src/lib.rs:160–178): derive the binary name from the last
`split('/')` segment, read the binary and its `.joker` manifest, and
write the three length-prefixed frames. -/
def sendOne (w : NetWorld) (st : SendState) (container_path : Str) :
    SendState × Option JError :=
  match (splitChar '/' container_path).getLast? with
  | none => (st, some .malformedPath)
  | some seg =>
    let binary_name := strBytes seg
    let st := { st with reads := st.reads ++ [container_path] }
    match w.fs container_path with
    | none => (st, some (.fileRead container_path))
    | some binary =>
      let manifest_path := container_path ++ jokerSuffix
      let st := { st with reads := st.reads ++ [manifest_path] }
      match w.fs manifest_path with
      | none => (st, some (.fileRead manifest_path))
      | some binary_config =>
        writeMany w.failAfter st
          [toLeBytes8 binary_name.length, binary_name,
           toLeBytes8 binary.length, binary,
           toLeBytes8 binary_config.length, binary_config]

/-- The whole container loop: processes the paths in order, aborting at
the first failure. -/
def sendAll (w : NetWorld) (st : SendState) :
    List Str → SendState × Option JError
  | [] => (st, none)
  | p :: ps =>
    match sendOne w st p with
    | (st', some e) => (st', some e)
    | (st', none) => sendAll w st' ps

/-- Outcome of `run_containers`: the `Result` value, the bytes written
to the socket, the file-read attempts in order, and the number of
connection attempts made. -/
structure RunResult where
  result : Except JError Unit
  written : Bytes
  reads : List Str
  connectAttempts : Nat
deriving Repr

/-- The embedding of `run_containers` (src/lib.rs:155–187): a single
`TcpStream::connect` to the active daemon's address before any file is
read, then the send loop over the given paths. -/
def run_containers (w : NetWorld) (containers : List Str) : RunResult :=
  if w.connectOk then
    match sendAll w ⟨[], [], 0⟩ containers with
    | (st, some e) => ⟨.error e, st.written, st.reads, 1⟩
    | (st, none) => ⟨.ok (), st.written, st.reads, 1⟩
  else ⟨.error .connectionFailed, [], [], 1⟩

/-! ## The command dispatcher (`execute`) -/

/-- A parsed subcommand, the embedding of `matches.subcommand()`
(argument parsing itself is the external CLI framework). -/
inductive Subcommand where
  | add (daemon_name ip port : Str)
  | checkout (daemon_name : Str)
  | run (containers : List Str)
  | trace
  | logs (container_name : Str)
  | unknownCmd
deriving DecidableEq, Repr

/-- How an `execute` invocation ends: a returned `Ok`, a returned
error, or a panic with the given message (as `todo!()` produces). -/
inductive ExecOutcome where
  | ok : ExecOutcome
  | err (e : JError) : ExecOutcome
  | panicked (msg : Str) : ExecOutcome
deriving DecidableEq, Repr

/-- The `todo!()` panic message. -/
def todoMsg : Str :=
  'n' :: 'o' :: 't' :: ' ' :: 'y' :: 'e' :: 't' :: ' ' ::
  'i' :: 'm' :: 'p' :: 'l' :: 'e' :: 'm' :: 'e' :: 'n' :: 't' :: 'e' :: 'd' :: []

/-- The embedding of `execute` (src/lib.rs:60–104): dispatch on the
parsed subcommand.  The registry commands thread the persisted config;
`run` uses the network world; `trace` and the help fallback return
`Ok(())`; `logs` hits `todo!()`, which panics. -/
def execute (persisted : Config) (w : NetWorld) :
    Subcommand → ExecOutcome × Config
  | .add n i p =>
    let r := add_daemon persisted n i p
    (match r.result with
     | .ok () => .ok
     | .error e => .err e, r.persisted)
  | .checkout n =>
    let r := checkout_daemon persisted n
    (match r.result with
     | .ok () => .ok
     | .error e => .err e, r.persisted)
  | .run cs =>
    (match (run_containers w cs).result with
     | .ok () => .ok
     | .error e => .err e, persisted)
  | .trace => (.ok, persisted)
  | .logs _ => (.panicked todoMsg, persisted)
  | .unknownCmd => (.ok, persisted)

/-! ## Helper lemmas: the daemons map -/

theorem lookupD_append_single (m : List (Str × SocketAddr)) (k key : Str)
    (v : SocketAddr) :
    lookupD (m ++ [(k, v)]) key =
      match lookupD m key with
      | some w => some w
      | none => if k = key then some v else none := by
  induction m with
  | nil => simp [lookupD]
  | cons hd tl ih =>
    by_cases h : hd.1 = key
    · simp [lookupD, h]
    · simpa [lookupD, h] using ih

theorem orInsert_of_mem (m : List (Str × SocketAddr)) (k : Str)
    (v w : SocketAddr) (h : lookupD m k = some w) :
    orInsert m k v = m := by
  simp [orInsert, h]

theorem orInsert_of_fresh (m : List (Str × SocketAddr)) (k : Str)
    (v : SocketAddr) (h : lookupD m k = none) :
    orInsert m k v = m ++ [(k, v)] := by
  simp [orInsert, h]

theorem lookupD_orInsert_self (m : List (Str × SocketAddr)) (k : Str)
    (v : SocketAddr) :
    lookupD (orInsert m k v) k = some ((lookupD m k).getD v) := by
  cases h : lookupD m k with
  | some w => simp [orInsert_of_mem m k v w h, h]
  | none => simp [orInsert_of_fresh m k v h, lookupD_append_single, h]

theorem lookupD_orInsert_other (m : List (Str × SocketAddr)) (k key : Str)
    (v : SocketAddr) (hne : k ≠ key) :
    lookupD (orInsert m k v) key = lookupD m key := by
  cases h : lookupD m k with
  | some w => simp [orInsert_of_mem m k v w h]
  | none =>
    rw [orInsert_of_fresh m k v h, lookupD_append_single]
    cases hk : lookupD m key <;> simp [hne]

/-! ## Concrete fixtures for witnesses -/

/-- The example daemon name `"west"`. -/
def nameW : Str := "west".data

/-- The example IP text `"127.0.0.1"`. -/
def ipW : Str := "127.0.0.1".data

/-- The example port text `"9000"`. -/
def portW : Str := "9000".data

/-- A second IP text `"10.0.0.2"`. -/
def ipW2 : Str := "10.0.0.2".data

/-- A second port text `"80"`. -/
def portW2 : Str := "80".data

/-- The parsed example address `127.0.0.1:9000`. -/
def addrW : SocketAddr := ⟨⟨127, 0, 0, 1⟩, 9000⟩

/-- A registry state with no daemons. -/
def cfg0 : Config := ⟨[], ⟨[], addrW⟩⟩

/-- A registry state that knows the daemon `"west"`. -/
def cfgW : Config := ⟨[(nameW, addrW)], ⟨[], addrW⟩⟩

/-! ## Claims about the registry -/

/-- C2: calling `add` twice with the same name leaves `daemons[name]`
at the value established by the first call; the second call succeeds
but is a no-op on the map (first-write-wins). -/
theorem add_twice_first_write_wins (cfg : Config) (n ip1 port1 ip2 port2 : Str)
    (a1 : IpAddr) (v1 : Nat) (a2 : IpAddr) (v2 : Nat)
    (h1 : parseIp ip1 = some a1) (h2 : parseU16 port1 = some v1)
    (h3 : parseIp ip2 = some a2) (h4 : parseU16 port2 = some v2) :
    (add_daemon cfg n ip1 port1).result = .ok () ∧
    (add_daemon (add_daemon cfg n ip1 port1).persisted n ip2 port2).result = .ok () ∧
    (add_daemon (add_daemon cfg n ip1 port1).persisted n ip2 port2).persisted.daemons
      = (add_daemon cfg n ip1 port1).persisted.daemons ∧
    (lookupD cfg.daemons n = none →
      lookupD (add_daemon (add_daemon cfg n ip1 port1).persisted n ip2 port2).persisted.daemons n
        = some ⟨a1, v1⟩) := by
  have hmem : lookupD (orInsert cfg.daemons n ⟨a1, v1⟩) n
      = some ((lookupD cfg.daemons n).getD ⟨a1, v1⟩) :=
    lookupD_orInsert_self cfg.daemons n ⟨a1, v1⟩
  refine ⟨by simp [add_daemon, h1, h2], ?_, ?_, ?_⟩
  · simp [add_daemon, h1, h2, h3, h4]
  · simp only [add_daemon, h1, h2, h3, h4]
    exact orInsert_of_mem _ _ _ _ hmem
  · intro hfresh
    simp only [add_daemon, h1, h2, h3, h4]
    rw [orInsert_of_mem _ _ _ _ hmem, hmem, hfresh]
    rfl

/-- C2 witness: adding `"west"` twice with two different addresses
keeps the first address. -/
theorem add_twice_first_write_wins_witness :
    (add_daemon cfg0 nameW ipW portW).result = .ok () ∧
    lookupD (add_daemon (add_daemon cfg0 nameW ipW portW).persisted nameW ipW2 portW2).persisted.daemons nameW
      = some addrW := by
  have h := add_twice_first_write_wins cfg0 nameW ipW portW ipW2 portW2
    ⟨127, 0, 0, 1⟩ 9000 ⟨10, 0, 0, 2⟩ 80
    (by decide) (by decide) (by decide) (by decide)
  exact ⟨h.1, h.2.2.2 rfl⟩

/-- C3: `checkout` of an unknown name returns the absent-key
(`UnknownDaemon`) error, leaves the whole in-memory config (hence
`active_daemon`) unchanged, leaves the persisted state unchanged, and
never calls `write_config`. -/
theorem checkout_unknown_daemon (cfg : Config) (n : Str)
    (h : lookupD cfg.daemons n = none) :
    checkout_daemon cfg n = ⟨.error .absentKey, cfg, cfg, []⟩ := by
  simp [checkout_daemon, h]

/-- C3 witness: checking out `"west"` on an empty registry. -/
theorem checkout_unknown_daemon_witness :
    lookupD cfg0.daemons nameW = none ∧
    checkout_daemon cfg0 nameW = ⟨.error .absentKey, cfg0, cfg0, []⟩ :=
  ⟨rfl, checkout_unknown_daemon cfg0 nameW rfl⟩

/-- C4: `checkout` of a known name succeeds, replaces `active_daemon`
with exactly the record `(name, daemons[name])`, and persists the
updated state (one `write_config` call with the updated config). -/
theorem checkout_known_daemon (cfg : Config) (n : Str) (sa : SocketAddr)
    (h : lookupD cfg.daemons n = some sa) :
    (checkout_daemon cfg n).result = .ok () ∧
    (checkout_daemon cfg n).memory.current_daemon = ⟨n, sa⟩ ∧
    (checkout_daemon cfg n).persisted = (checkout_daemon cfg n).memory ∧
    (checkout_daemon cfg n).savedCalls = [(checkout_daemon cfg n).persisted] := by
  simp [checkout_daemon, h]

/-- C4 witness: checking out `"west"` on a registry that knows it. -/
theorem checkout_known_daemon_witness :
    lookupD cfgW.daemons nameW = some addrW ∧
    (checkout_daemon cfgW nameW).result = .ok () ∧
    (checkout_daemon cfgW nameW).memory.current_daemon = ⟨nameW, addrW⟩ := by
  have h := checkout_known_daemon cfgW nameW addrW (by decide)
  exact ⟨by decide, h.1, h.2.1⟩

/-- C9: if either the IP text or the port text fails to parse, `add`
fails with the corresponding invalid-address error and neither the
in-memory config nor the persisted state is touched; `write_config` is
never called. -/
theorem add_invalid_address (cfg : Config) (n ip port : Str)
    (h : parseIp ip = none ∨ parseU16 port = none) :
    ((add_daemon cfg n ip port).result = .error .addrParse ∨
     (add_daemon cfg n ip port).result = .error .parseInt) ∧
    (add_daemon cfg n ip port).memory = cfg ∧
    (add_daemon cfg n ip port).persisted = cfg ∧
    (add_daemon cfg n ip port).savedCalls = [] := by
  rcases h with h | h
  · simp [add_daemon, h]
  · cases hip : parseIp ip with
    | none => simp [add_daemon, hip]
    | some a => simp [add_daemon, hip, h]

/-- C9 witness: adding with the unparsable IP text `"west"`. -/
theorem add_invalid_address_witness :
    parseIp nameW = none ∧
    (add_daemon cfg0 nameW nameW portW).result = .error .addrParse ∧
    (add_daemon cfg0 nameW nameW portW).persisted = cfg0 ∧
    (add_daemon cfg0 nameW nameW portW).savedCalls = [] := by
  have h := add_invalid_address cfg0 nameW nameW portW (.inl (by decide))
  have hr : (add_daemon cfg0 nameW nameW portW).result = .error .addrParse := by
    rcases h.1 with hh | hh
    · exact hh
    · exact absurd hh (by decide)
  exact ⟨by decide, hr, h.2.2.1, h.2.2.2⟩

/-- C10: each registry mutation touches only its own part of the
state.  A fresh `add` appends exactly one entry, leaves every other
entry's lookup result unchanged and leaves `current_daemon` untouched;
a successful `checkout` replaces only `current_daemon` and leaves the
`daemons` map entirely unchanged. -/
theorem registry_frame_conditions :
    (∀ (cfg : Config) (n ip port : Str) (a : IpAddr) (v : Nat),
      parseIp ip = some a → parseU16 port = some v →
      lookupD cfg.daemons n = none →
      (add_daemon cfg n ip port).result = .ok () ∧
      (add_daemon cfg n ip port).memory.daemons = cfg.daemons ++ [(n, ⟨a, v⟩)] ∧
      (add_daemon cfg n ip port).memory.current_daemon = cfg.current_daemon ∧
      (∀ m : Str, m ≠ n →
        lookupD (add_daemon cfg n ip port).memory.daemons m = lookupD cfg.daemons m)) ∧
    (∀ (cfg : Config) (n : Str) (sa : SocketAddr),
      lookupD cfg.daemons n = some sa →
      (checkout_daemon cfg n).persisted.daemons = cfg.daemons ∧
      (checkout_daemon cfg n).persisted.current_daemon = ⟨n, sa⟩) := by
  constructor
  · intro cfg n ip port a v hip hport hfresh
    refine ⟨by simp [add_daemon, hip, hport], ?_, by simp [add_daemon, hip, hport], ?_⟩
    · simp only [add_daemon, hip, hport]
      exact orInsert_of_fresh cfg.daemons n ⟨a, v⟩ hfresh
    · intro m hm
      simp only [add_daemon, hip, hport]
      exact lookupD_orInsert_other cfg.daemons n m ⟨a, v⟩ (fun hh => hm hh.symm)
  · intro cfg n sa h
    simp [checkout_daemon, h]

/-- C10 witness: a fresh `add` of `"west"` on the empty registry and a
`checkout` of `"west"` on a registry that knows it. -/
theorem registry_frame_conditions_witness :
    lookupD cfg0.daemons nameW = none ∧
    (add_daemon cfg0 nameW ipW portW).memory.daemons = cfg0.daemons ++ [(nameW, addrW)] ∧
    (add_daemon cfg0 nameW ipW portW).memory.current_daemon = cfg0.current_daemon ∧
    lookupD cfgW.daemons nameW = some addrW ∧
    (checkout_daemon cfgW nameW).persisted.daemons = cfgW.daemons ∧
    (checkout_daemon cfgW nameW).persisted.current_daemon = ⟨nameW, addrW⟩ := by
  have h1 := registry_frame_conditions.1 cfg0 nameW ipW portW
    ⟨127, 0, 0, 1⟩ 9000 (by decide) (by decide) rfl
  have h2 := registry_frame_conditions.2 cfgW nameW addrW (by decide)
  exact ⟨rfl, h1.2.1, h1.2.2.1, by decide, h2.1, h2.2⟩

/-! ## Helper lemmas: path splitting -/

theorem splitChar_ne_nil (sep : Char) (s : Str) : splitChar sep s ≠ [] := by
  cases s with
  | nil => simp [splitChar]
  | cons c rest =>
    by_cases h : c = sep
    · simp [splitChar, h]
    · simp only [splitChar, if_neg h]
      cases splitChar sep rest <;> simp

theorem splitChar_of_not_mem (sep : Char) (s : Str) (h : sep ∉ s) :
    splitChar sep s = [s] := by
  induction s with
  | nil => rfl
  | cons c rest ih =>
    have hc : c ≠ sep := fun hh => h (hh ▸ List.mem_cons_self c rest)
    have hrest : sep ∉ rest := fun hh => h (List.mem_cons_of_mem c hh)
    simp [splitChar, hc, ih hrest]

theorem two_le_splitChar_length_of_mem (sep : Char) (s : Str) (h : sep ∈ s) :
    2 ≤ (splitChar sep s).length := by
  induction s with
  | nil => simp at h
  | cons c rest ih =>
    by_cases hc : c = sep
    · have h1 : 1 ≤ (splitChar sep rest).length :=
        List.length_pos.mpr (splitChar_ne_nil sep rest)
      simp only [splitChar, if_pos hc, List.length_cons]
      omega
    · have hrest : sep ∈ rest := by
        rcases List.mem_cons.mp h with h' | h'
        · exact absurd h'.symm hc
        · exact h'
      have h2 := ih hrest
      simp only [splitChar, if_neg hc]
      cases hsp : splitChar sep rest with
      | nil => exact absurd hsp (splitChar_ne_nil sep rest)
      | cons g gs => rw [hsp] at h2; simpa using h2

theorem takeWhile_all_eq (q : Char → Bool) (l : Str) (h : l.all q) :
    l.takeWhile q = l := by
  induction l with
  | nil => rfl
  | cons a l ih =>
    simp only [List.all_cons, Bool.and_eq_true] at h
    simp [List.takeWhile, h.1, ih h.2]

theorem takeWhile_append_of_not_all (q : Char → Bool) (l₁ l₂ : Str)
    (h : ¬ l₁.all q) : (l₁ ++ l₂).takeWhile q = l₁.takeWhile q := by
  induction l₁ with
  | nil => simp at h
  | cons a l ih =>
    by_cases ha : q a
    · simp only [List.all_cons, Bool.and_eq_true] at h
      have : ¬ l.all q := fun hh => h ⟨ha, hh⟩
      simp [List.takeWhile, ha, ih this]
    · simp [List.takeWhile, ha]

theorem takeWhile_append_single_false (q : Char → Bool) (l : Str) (x : Char)
    (hx : q x = false) : (l ++ [x]).takeWhile q = l.takeWhile q := by
  induction l with
  | nil => simp [List.takeWhile, hx]
  | cons a l ih => by_cases h : q a <;> simp [List.takeWhile, h, ih]

/-- The substring after the last occurrence of the separator (the
whole string when the separator does not occur): the maximal suffix
free of the separator, written via `reverse`/`takeWhile`.  This is the
spec's description of the derived display name. -/
def afterLastSep (sep : Char) (s : Str) : Str :=
  (s.reverse.takeWhile (fun c => c != sep)).reverse

theorem splitChar_getLast (sep : Char) (s : Str) :
    (splitChar sep s).getLast? = some (afterLastSep sep s) := by
  induction s with
  | nil => rfl
  | cons c rest ih =>
    by_cases hc : c = sep
    · subst hc
      have hA : afterLastSep c (c :: rest) = afterLastSep c rest := by
        simp only [afterLastSep, List.reverse_cons]
        rw [takeWhile_append_single_false _ _ _ (by simp)]
      rw [hA]
      cases hsp : splitChar c rest with
      | nil => exact absurd hsp (splitChar_ne_nil c rest)
      | cons g gs =>
        rw [hsp] at ih
        simp only [splitChar, hsp, if_true]
        rw [List.getLast?_cons_cons]
        exact ih
    · by_cases hmem : sep ∈ rest
      · have hA : afterLastSep sep (c :: rest) = afterLastSep sep rest := by
          simp only [afterLastSep, List.reverse_cons]
          rw [takeWhile_append_of_not_all _ _ _ (by
            simp only [List.all_eq_true, not_forall]
            exact ⟨sep, List.mem_reverse.mpr hmem, by simp⟩)]
        rw [hA]
        have h2 := two_le_splitChar_length_of_mem sep rest hmem
        cases hsp : splitChar sep rest with
        | nil => exact absurd hsp (splitChar_ne_nil sep rest)
        | cons g gs =>
          cases gs with
          | nil => rw [hsp] at h2; simp at h2
          | cons g2 gs' =>
            rw [hsp] at ih
            rw [List.getLast?_cons_cons] at ih
            simp only [splitChar, if_neg hc, hsp]
            rw [List.getLast?_cons_cons]
            exact ih
      · have hsp := splitChar_of_not_mem sep rest hmem
        have hA : afterLastSep sep (c :: rest) = c :: rest := by
          simp only [afterLastSep, List.reverse_cons]
          rw [takeWhile_all_eq _ _ (by
            simp only [List.all_append, List.all_eq_true, Bool.and_eq_true]
            constructor
            · intro x hx
              have : x ∈ rest := List.mem_reverse.mp hx
              simp [bne_iff_ne]
              exact fun hh => hmem (hh ▸ this)
            · simp [bne_iff_ne, hc])]
          simp
        rw [hA]
        simp [splitChar, if_neg hc, hsp]

/-! ## Helper lemmas: the send loop -/

/-- The two file-read attempts one artifact causes, in order. -/
def readsOf (p : Str) : List Str := [p, p ++ jokerSuffix]

/-- The three wire frames one artifact produces: framed display name,
framed payload, framed manifest. -/
def artifactFrames (fs : Str → Option Bytes) (p : Str) : Bytes :=
  frame (strBytes (afterLastSep '/' p)) ++ frame ((fs p).getD []) ++
    frame ((fs (p ++ jokerSuffix)).getD [])

theorem sendOne_ok (w : NetWorld) (st : SendState) (p : Str) (b m : Bytes)
    (hfa : w.failAfter = none) (hb : w.fs p = some b)
    (hm : w.fs (p ++ jokerSuffix) = some m) :
    sendOne w st p =
      (⟨st.written ++ artifactFrames w.fs p, st.reads ++ readsOf p,
        st.calls + 6⟩, none) := by
  rw [sendOne, splitChar_getLast '/' p]
  simp only [hb, hm, hfa, writeMany, writeAll, artifactFrames, readsOf, frame]
  simp [hb, hm, List.append_assoc]

theorem sendAll_ok (w : NetWorld) (cs : List Str) (st : SendState)
    (hfa : w.failAfter = none)
    (h : ∀ p ∈ cs, (w.fs p).isSome ∧ (w.fs (p ++ jokerSuffix)).isSome) :
    sendAll w st cs =
      (⟨st.written ++ cs.flatMap (artifactFrames w.fs),
        st.reads ++ cs.flatMap readsOf, st.calls + 6 * cs.length⟩, none) := by
  induction cs generalizing st with
  | nil => simp [sendAll]
  | cons p cs ih =>
    obtain ⟨b, hb⟩ := Option.isSome_iff_exists.mp (h p (List.mem_cons_self p cs)).1
    obtain ⟨m, hm⟩ := Option.isSome_iff_exists.mp (h p (List.mem_cons_self p cs)).2
    rw [sendAll, sendOne_ok w st p b m hfa hb hm]
    dsimp only
    rw [ih _ (fun q hq => h q (List.mem_cons_of_mem p hq))]
    simp [List.append_assoc]
    omega

theorem sendAll_append (w : NetWorld) (xs ys : List Str) (st : SendState) :
    sendAll w st (xs ++ ys) =
      match sendAll w st xs with
      | (st', none) => sendAll w st' ys
      | (st', some e) => (st', some e) := by
  induction xs generalizing st with
  | nil => simp [sendAll]
  | cons x xs ih =>
    rw [List.cons_append, sendAll, sendAll]
    cases hx : sendOne w st x with
    | mk st' e? =>
      cases e? with
      | none => exact ih st'
      | some e => rfl

/-- The six `write_all` chunks one artifact produces, in call order:
length prefix and bytes of the name, of the payload, of the manifest. -/
def writeChunks (fs : Str → Option Bytes) (p : Str) : List Bytes :=
  [toLeBytes8 (strBytes (afterLastSep '/' p)).length,
   strBytes (afterLastSep '/' p),
   toLeBytes8 ((fs p).getD []).length, (fs p).getD [],
   toLeBytes8 ((fs (p ++ jokerSuffix)).getD []).length,
   (fs (p ++ jokerSuffix)).getD []]

theorem artifactFrames_eq_flatten (fs : Str → Option Bytes) (p : Str) :
    artifactFrames fs p = (writeChunks fs p).flatten := by
  simp [artifactFrames, writeChunks, frame, List.append_assoc]

theorem sendOne_eq (w : NetWorld) (st : SendState) (p : Str) (b m : Bytes)
    (hb : w.fs p = some b) (hm : w.fs (p ++ jokerSuffix) = some m) :
    sendOne w st p =
      writeMany w.failAfter ⟨st.written, st.reads ++ readsOf p, st.calls⟩
        (writeChunks w.fs p) := by
  rw [sendOne, splitChar_getLast]
  dsimp only
  rw [hb]
  dsimp only
  rw [hm]
  dsimp only
  simp [readsOf, writeChunks, hb, hm, List.append_assoc]

theorem writeMany_ok_budget (k : Nat) (st : SendState) (l : List Bytes)
    (h : st.calls + l.length ≤ k) :
    writeMany (some k) st l =
      (⟨st.written ++ l.flatten, st.reads, st.calls + l.length⟩, none) := by
  induction l generalizing st with
  | nil => simp [writeMany]
  | cons bs rest ih =>
    simp only [List.length_cons] at h
    have hlt : st.calls < k := by omega
    rw [writeMany]
    simp only [writeAll, if_pos hlt]
    rw [ih ⟨st.written ++ bs, st.reads, st.calls + 1⟩ (by simp only []; omega)]
    simp [List.append_assoc]
    omega

theorem writeMany_fail (k : Nat) (st : SendState) (l : List Bytes)
    (hk : st.calls ≤ k) (hl : k - st.calls < l.length) :
    writeMany (some k) st l =
      (⟨st.written ++ ((l.take (k - st.calls)).flatten), st.reads, k⟩,
       some .writeFailed) := by
  induction l generalizing st with
  | nil => simp at hl
  | cons bs rest ih =>
    rw [writeMany]
    by_cases hlt : st.calls < k
    · simp only [writeAll, if_pos hlt]
      rw [ih ⟨st.written ++ bs, st.reads, st.calls + 1⟩ (by simp only []; omega)
        (by simp only [List.length_cons] at hl ⊢; omega)]
      have hj : k - st.calls = (k - (st.calls + 1)) + 1 := by omega
      rw [hj, List.take_succ_cons]
      simp [List.append_assoc]
    · have hee : k = st.calls := by omega
      simp only [writeAll, if_neg hlt]
      have h0 : k - st.calls = 0 := by omega
      rw [h0]
      simp [hee]

theorem sendOne_ok_budget (w : NetWorld) (st : SendState) (p : Str)
    (b m : Bytes) (k : Nat) (hfa : w.failAfter = some k)
    (hb : w.fs p = some b) (hm : w.fs (p ++ jokerSuffix) = some m)
    (hcalls : st.calls + 6 ≤ k) :
    sendOne w st p =
      (⟨st.written ++ artifactFrames w.fs p, st.reads ++ readsOf p,
        st.calls + 6⟩, none) := by
  rw [sendOne_eq w st p b m hb hm, hfa,
    writeMany_ok_budget k _ _ (by simp only [writeChunks]; simpa using hcalls)]
  simp [artifactFrames_eq_flatten, writeChunks]

theorem sendOne_fail (w : NetWorld) (st : SendState) (p : Str)
    (b m : Bytes) (k : Nat) (hfa : w.failAfter = some k)
    (hb : w.fs p = some b) (hm : w.fs (p ++ jokerSuffix) = some m)
    (hk : st.calls ≤ k) (hl : k - st.calls < 6) :
    sendOne w st p =
      (⟨st.written ++ ((writeChunks w.fs p).take (k - st.calls)).flatten,
        st.reads ++ readsOf p, k⟩, some .writeFailed) := by
  rw [sendOne_eq w st p b m hb hm, hfa,
    writeMany_fail k _ _ (by simpa using hk)
      (by simp only [writeChunks]; simpa using hl)]

theorem sendAll_ok_budget (w : NetWorld) (cs : List Str) (st : SendState)
    (k : Nat) (hfa : w.failAfter = some k)
    (h : ∀ p ∈ cs, (w.fs p).isSome ∧ (w.fs (p ++ jokerSuffix)).isSome)
    (hcalls : st.calls + 6 * cs.length ≤ k) :
    sendAll w st cs =
      (⟨st.written ++ cs.flatMap (artifactFrames w.fs),
        st.reads ++ cs.flatMap readsOf, st.calls + 6 * cs.length⟩, none) := by
  induction cs generalizing st with
  | nil => simp [sendAll]
  | cons p cs ih =>
    obtain ⟨b, hb⟩ := Option.isSome_iff_exists.mp (h p (List.mem_cons_self p cs)).1
    obtain ⟨m, hm⟩ := Option.isSome_iff_exists.mp (h p (List.mem_cons_self p cs)).2
    simp only [List.length_cons] at hcalls
    rw [sendAll, sendOne_ok_budget w st p b m k hfa hb hm (by omega)]
    dsimp only
    rw [ih _ (fun q hq => h q (List.mem_cons_of_mem p hq)) (by simp only []; omega)]
    simp [List.append_assoc]
    omega

/-! ## Helper lemmas: the dead `malformedPath` branch -/

theorem writeMany_err_cases (fa : Option Nat) (st : SendState) (l : List Bytes) :
    (writeMany fa st l).2 = none ∨ (writeMany fa st l).2 = some .writeFailed := by
  induction l generalizing st with
  | nil => left; rfl
  | cons bs rest ih =>
    rw [writeMany]
    cases fa with
    | none => exact ih _
    | some k =>
      by_cases hk : st.calls < k
      · simp only [writeAll, if_pos hk]
        exact ih _
      · simp only [writeAll, if_neg hk]
        right
        trivial

theorem writeMany_ne_malformed (fa : Option Nat) (st : SendState) (l : List Bytes) :
    (writeMany fa st l).2 ≠ some .malformedPath := by
  rcases writeMany_err_cases fa st l with h | h <;> simp [h]

theorem sendOne_no_malformed (w : NetWorld) (st : SendState) (p : Str) :
    (sendOne w st p).2 ≠ some .malformedPath := by
  rw [sendOne, splitChar_getLast]
  dsimp only
  cases hb : w.fs p with
  | none => simp
  | some b =>
    cases hm : w.fs (p ++ jokerSuffix) with
    | none => simp
    | some m => exact writeMany_ne_malformed _ _ _

theorem sendAll_no_malformed (w : NetWorld) (cs : List Str) (st : SendState) :
    (sendAll w st cs).2 ≠ some .malformedPath := by
  induction cs generalizing st with
  | nil => simp [sendAll]
  | cons p ps ih =>
    rw [sendAll]
    cases hone : sendOne w st p with
    | mk st' e? =>
      cases e? with
      | none => exact ih st'
      | some e =>
        have := sendOne_no_malformed w st p
        rw [hone] at this
        simpa using this

/-! ## Claims about the shipper -/

/-- C1: when the connection is up, no write fails and every artifact
and manifest file is readable, `run_containers` succeeds and the bytes
written to the connection are exactly, per artifact in order, the three
length-prefixed frames name, payload, manifest — each an 8-byte
little-endian length followed by that many raw bytes. -/
theorem run_wire_protocol (fs : Str → Option Bytes) (cs : List Str)
    (h : ∀ p ∈ cs, (fs p).isSome ∧ (fs (p ++ jokerSuffix)).isSome) :
    (run_containers ⟨fs, true, none⟩ cs).result = .ok () ∧
    (run_containers ⟨fs, true, none⟩ cs).written = cs.flatMap (artifactFrames fs) := by
  have hs := sendAll_ok ⟨fs, true, none⟩ cs ⟨[], [], 0⟩ rfl h
  rw [run_containers]
  dsimp only
  rw [hs]
  simp

/-- The example artifact path `"abcde"` (a 5-byte name). -/
def pathA : Str := "abcde".data

/-- The example 1000-byte payload. -/
def payloadA : Bytes := List.replicate 1000 7

/-- The example 20-byte manifest. -/
def manifestA : Bytes := List.replicate 20 9

/-- A filesystem holding exactly the example artifact and manifest. -/
def fsA : Str → Option Bytes := fun p =>
  if p = pathA then some payloadA
  else if p = pathA ++ jokerSuffix then some manifestA
  else none

/-- C1 witness: for the 5-byte name, 1000-byte payload and 20-byte
manifest, exactly `8+5+8+1000+8+20 = 1049` bytes are written, with the
little-endian prefixes `5`, `1000`, `20` in place. -/
theorem run_wire_protocol_witness :
    (run_containers ⟨fsA, true, none⟩ [pathA]).result = .ok () ∧
    (run_containers ⟨fsA, true, none⟩ [pathA]).written =
      [5, 0, 0, 0, 0, 0, 0, 0] ++ [97, 98, 99, 100, 101] ++
        ([232, 3, 0, 0, 0, 0, 0, 0] ++ payloadA ++
          ([20, 0, 0, 0, 0, 0, 0, 0] ++ manifestA)) ∧
    (run_containers ⟨fsA, true, none⟩ [pathA]).written.length = 1049 := by
  have h := run_wire_protocol fsA [pathA] (by
    intro p hp
    simp only [List.mem_singleton] at hp
    subst hp
    exact ⟨rfl, rfl⟩)
  have hname : afterLastSep '/' pathA = pathA := by decide
  have hsb : strBytes pathA = [97, 98, 99, 100, 101] := by decide
  have hlen1 : payloadA.length = 1000 := by
    simp only [payloadA, List.length_replicate]
  have hlen2 : manifestA.length = 20 := by
    simp only [manifestA, List.length_replicate]
  have hw : (run_containers ⟨fsA, true, none⟩ [pathA]).written =
      [5, 0, 0, 0, 0, 0, 0, 0] ++ [97, 98, 99, 100, 101] ++
        ([232, 3, 0, 0, 0, 0, 0, 0] ++ payloadA ++
          ([20, 0, 0, 0, 0, 0, 0, 0] ++ manifestA)) := by
    rw [h.2]
    simp only [List.flatMap_cons, List.flatMap_nil, List.append_nil,
      artifactFrames, frame, hname, hsb]
    rw [show fsA pathA = some payloadA from rfl,
      show fsA (pathA ++ jokerSuffix) = some manifestA from rfl]
    simp only [Option.getD_some, hlen1, hlen2]
    norm_num [toLeBytes8, List.append_assoc]
  refine ⟨h.1, hw, ?_⟩
  rw [hw]
  simp only [List.length_append, List.length_cons, List.length_nil, hlen1, hlen2]

/-- C8: a failed connection attempt fails the batch with the
connection error, writes zero bytes, reads no files, and makes exactly
one connection attempt (no retry). -/
theorem run_connection_failed (fs : Str → Option Bytes) (fa : Option Nat)
    (cs : List Str) :
    run_containers ⟨fs, false, fa⟩ cs = ⟨.error .connectionFailed, [], [], 1⟩ :=
  rfl

/-- C5: the connection is opened before any file is read (a failed
connect leaves the read log empty), and artifacts are processed
strictly in order, aborting the batch at the first failure, whether a
file read or a socket write.  Part two: if every artifact before `p`
is fully readable and `p`'s payload file is unreadable, the batch
aborts at `p` with its read error, the frames of the earlier artifacts
remain written (not rolled back), nothing is written afterwards, and
the read log stops right after `p`.  Part three: if the socket fails
at the `j`-th of the six `write_all` calls of artifact `p` (everything
before being readable and written), the batch aborts there with the
write error: the earlier artifacts' frames remain written followed by
exactly the first `j` chunks of `p`, with no further writes and no
reads beyond `p`'s two files. -/
theorem run_sequencing :
    (∀ (fs : Str → Option Bytes) (fa : Option Nat) (cs : List Str),
      (run_containers ⟨fs, false, fa⟩ cs).reads = [] ∧
      (run_containers ⟨fs, false, fa⟩ cs).written = []) ∧
    (∀ (fs : Str → Option Bytes) (pre post : List Str) (p : Str),
      (∀ q ∈ pre, (fs q).isSome ∧ (fs (q ++ jokerSuffix)).isSome) →
      fs p = none →
      (run_containers ⟨fs, true, none⟩ (pre ++ p :: post)).result
          = .error (.fileRead p) ∧
      (run_containers ⟨fs, true, none⟩ (pre ++ p :: post)).written
          = pre.flatMap (artifactFrames fs) ∧
      (run_containers ⟨fs, true, none⟩ (pre ++ p :: post)).reads
          = pre.flatMap readsOf ++ [p]) ∧
    (∀ (fs : Str → Option Bytes) (pre post : List Str) (p : Str) (j : Nat),
      (∀ q ∈ pre, (fs q).isSome ∧ (fs (q ++ jokerSuffix)).isSome) →
      (fs p).isSome → (fs (p ++ jokerSuffix)).isSome → j < 6 →
      (run_containers ⟨fs, true, some (6 * pre.length + j)⟩
          (pre ++ p :: post)).result = .error .writeFailed ∧
      (run_containers ⟨fs, true, some (6 * pre.length + j)⟩
          (pre ++ p :: post)).written
          = pre.flatMap (artifactFrames fs) ++
            ((writeChunks fs p).take j).flatten ∧
      (run_containers ⟨fs, true, some (6 * pre.length + j)⟩
          (pre ++ p :: post)).reads
          = pre.flatMap readsOf ++ readsOf p) := by
  refine ⟨?_, ?_, ?_⟩
  · intro fs fa cs
    exact ⟨rfl, rfl⟩
  · intro fs pre post p hpre hp
    have hs := sendAll_ok ⟨fs, true, none⟩ pre ⟨[], [], 0⟩ rfl hpre
    have happ := sendAll_append ⟨fs, true, none⟩ pre (p :: post) ⟨[], [], 0⟩
    rw [hs] at happ
    dsimp only at happ
    have hone : sendOne ⟨fs, true, none⟩
        ⟨[] ++ pre.flatMap (artifactFrames fs), [] ++ pre.flatMap readsOf,
          0 + 6 * pre.length⟩ p =
        (⟨[] ++ pre.flatMap (artifactFrames fs),
          ([] ++ pre.flatMap readsOf) ++ [p], 0 + 6 * pre.length⟩,
         some (.fileRead p)) := by
      rw [sendOne, splitChar_getLast]
      dsimp only
      rw [hp]
    rw [sendAll, hone] at happ
    rw [run_containers]
    dsimp only
    rw [happ]
    simp
  · intro fs pre post p j hpre hp1 hp2 hj
    obtain ⟨b, hb⟩ := Option.isSome_iff_exists.mp hp1
    obtain ⟨m, hm⟩ := Option.isSome_iff_exists.mp hp2
    have hs := sendAll_ok_budget ⟨fs, true, some (6 * pre.length + j)⟩ pre
      ⟨[], [], 0⟩ (6 * pre.length + j) rfl hpre
      (by show 0 + 6 * pre.length ≤ 6 * pre.length + j; omega)
    have happ := sendAll_append ⟨fs, true, some (6 * pre.length + j)⟩ pre
      (p :: post) ⟨[], [], 0⟩
    rw [hs] at happ
    dsimp only at happ
    have hone := sendOne_fail ⟨fs, true, some (6 * pre.length + j)⟩
      ⟨[] ++ pre.flatMap (artifactFrames fs), [] ++ pre.flatMap readsOf,
        0 + 6 * pre.length⟩ p b m (6 * pre.length + j) rfl hb hm
      (by show 0 + 6 * pre.length ≤ 6 * pre.length + j; omega)
      (by show 6 * pre.length + j - (0 + 6 * pre.length) < 6; omega)
    dsimp only at hone
    rw [show 6 * pre.length + j - (0 + 6 * pre.length) = j from by omega] at hone
    rw [sendAll, hone] at happ
    rw [run_containers]
    dsimp only
    rw [happ]
    simp

/-- A second artifact path `"miss"`, absent from `fsA`. -/
def pathB : Str := "miss".data

/-- A third artifact path `"zzz"`, absent from `fsA`. -/
def pathC : Str := "zzz".data

/-- C5 witness: with `"abcde"` readable and `"miss"` missing, the
batch `["abcde", "miss", "zzz"]` aborts at `"miss"`: the first
artifact's frames stay written, nothing of `"zzz"` is touched, and the
read log is exactly artifact, manifest, then the failing path. -/
theorem run_sequencing_witness :
    (run_containers ⟨fsA, true, none⟩ [pathA, pathB, pathC]).result
        = .error (.fileRead pathB) ∧
    (run_containers ⟨fsA, true, none⟩ [pathA, pathB, pathC]).written
        = [pathA].flatMap (artifactFrames fsA) ∧
    (run_containers ⟨fsA, true, none⟩ [pathA, pathB, pathC]).reads
        = [pathA, pathA ++ jokerSuffix, pathB] ∧
    (run_containers ⟨fsA, true, some 2⟩ [pathA, pathB]).result
        = .error .writeFailed ∧
    (run_containers ⟨fsA, true, some 2⟩ [pathA, pathB]).written
        = [5, 0, 0, 0, 0, 0, 0, 0] ++ [97, 98, 99, 100, 101] ∧
    (run_containers ⟨fsA, true, some 2⟩ [pathA, pathB]).reads
        = [pathA, pathA ++ jokerSuffix] := by
  have h := run_sequencing.2.1 fsA [pathA] [pathC] pathB
    (by
      intro q hq
      simp only [List.mem_singleton] at hq
      subst hq
      exact ⟨rfl, rfl⟩)
    (by decide)
  have h3 := run_sequencing.2.2 fsA [] [pathB] pathA 2
    (by intro q hq; simp at hq) rfl rfl (by omega)
  exact ⟨h.1, h.2.1, h.2.2.trans (by rfl), h3.1, h3.2.1.trans (by decide),
    h3.2.2.trans (by rfl)⟩

/-- The empty filesystem: every read fails. -/
def fsNone : Str → Option Bytes := fun _ => none

/-- A world with an accepting connection and no readable files. -/
def wNone : NetWorld := ⟨fsNone, true, none⟩

/-- C7 counterexample: for the empty path — a path with "no
segments" — `run_containers` does not fail with the malformed-path
error: `split('/').last()` yields the empty segment, the display name
derivation succeeds, and the failure (if any) comes later, from the
file read. -/
theorem run_empty_path_counterexample :
    (run_containers wNone [[]]).result = .error (.fileRead []) ∧
    (run_containers wNone [[]]).result ≠ .error .malformedPath := by
  exact ⟨rfl, by decide⟩

/-- C7 (amended): deriving the display name never fails — for every
path, `split('/').last()` returns the substring after the last path
separator (the whole path when no separator occurs, the empty string
for the empty path), so the malformed-path error is unreachable: no
`run_containers` outcome is ever that error. -/
theorem display_name_never_malformed :
    (∀ p : Str, (splitChar '/' p).getLast? = some (afterLastSep '/' p)) ∧
    (∀ (w : NetWorld) (cs : List Str),
      (run_containers w cs).result ≠ .error .malformedPath) := by
  refine ⟨splitChar_getLast '/', ?_⟩
  intro w cs
  rw [run_containers]
  cases hc : w.connectOk with
  | false => simp
  | true =>
    simp only [if_true]
    cases hs : sendAll w ⟨[], [], 0⟩ cs with
    | mk st e? =>
      cases e? with
      | none => simp
      | some e =>
        have := sendAll_no_malformed w cs ⟨[], [], 0⟩
        rw [hs] at this
        simp only at this
        simp only []
        intro hh
        exact this (by rw [Except.error.inj hh])

/-! ## Claims about the dispatcher -/

/-- C6 counterexample: invoking the `logs` command does not return a
recoverable error — it hits `todo!()`, which panics with the message
`"not yet implemented"`, so the outcome is a panic, not an `Err`. -/
theorem logs_panics_counterexample :
    (execute cfg0 wNone (.logs nameW)).1 = .panicked todoMsg ∧
    (execute cfg0 wNone (.logs nameW)).1 ≠ .ok ∧
    (execute cfg0 wNone (.logs nameW)).1 ≠ .err .absentKey := by
  exact ⟨rfl, by decide, by decide⟩

/-- C6 (amended): invoking `logs` fails loudly — for every state and
every argument it panics via `todo!()` with the clear message
`"not yet implemented"`, leaving the registry untouched; it is a panic
that crashes the process, not a recoverable error value. -/
theorem logs_panics_todo (cfg : Config) (w : NetWorld) (n : Str) :
    execute cfg w (.logs n) = (.panicked todoMsg, cfg) ∧
    todoMsg = "not yet implemented".data :=
  ⟨rfl, rfl⟩

/-- C7 amended claim witness: the derivation succeeds on the empty
path and a concrete run never yields the malformed-path error. -/
theorem display_name_never_malformed_witness :
    (splitChar '/' []).getLast? = some [] ∧
    (run_containers wNone [pathA]).result ≠ .error .malformedPath :=
  ⟨(display_name_never_malformed.1 []).trans (by rfl),
   display_name_never_malformed.2 wNone [pathA]⟩
